import Mathlib

/-!
# A shallow embedding of the Unleash Rust client's evaluation engine

This file embeds the evaluation core of the `unleash-client-rust` SDK
(`src/strategy.rs` and `src/client.rs`) in Lean 4 and proves properties of it.

Conventions of the embedding:
* Rust `u32`/`u8` machine integers become `Nat` with explicit `% 2 ^ 32`
  reductions where wrap-around matters (the murmur3 mixing steps).
* Rust `HashMap<String, String>` parameter maps become association lists with
  unique keys; `get` is first-match lookup.
* Rust closures (`Evaluate = Box<dyn Fn(&Context) -> bool>`) become Lean
  functions `Context → Bool`; the compile step and the evaluation step of the
  Rust code are fused where that is behaviour-preserving.
* Calls to `rand::thread_rng().gen_range(0..100)` are modelled by an explicit
  `rand : Nat` argument carrying the drawn value; the modelled code uses
  `rand % 100` so that the value is in `0..100` like the Rust draw.
* `f64` values (the NUM_* constraint operators) are modelled as exact
  rationals: decimal strings are parsed exactly, and `f64::EPSILON` is
  `1 / 2 ^ 52`.  Floating-point rounding, `inf`/`NaN` and exponent syntax are
  not modelled; no theorem below depends on the NUM_* operators.
-/

namespace Unleash

/-- UTF-8 encoding of one character as its byte values. Rust `String` is
UTF-8, so hashing a Rust string means hashing these bytes. -/
def charUtf8 (c : Char) : List Nat :=
  let n := c.toNat
  if n < 0x80 then [n]
  else if n < 0x800 then [0xC0 ||| (n >>> 6), 0x80 ||| (n &&& 0x3F)]
  else if n < 0x10000 then
    [0xE0 ||| (n >>> 12), 0x80 ||| ((n >>> 6) &&& 0x3F), 0x80 ||| (n &&& 0x3F)]
  else
    [0xF0 ||| (n >>> 18), 0x80 ||| ((n >>> 12) &&& 0x3F),
      0x80 ||| ((n >>> 6) &&& 0x3F), 0x80 ||| (n &&& 0x3F)]

/-- The UTF-8 bytes of a string. -/
def utf8Bytes (s : String) : List Nat := (s.data.map charUtf8).flatten

/-- First multiplication constant of 32-bit MurmurHash3. -/
def murmurC1 : Nat := 0xcc9e2d51

/-- Second multiplication constant of 32-bit MurmurHash3. -/
def murmurC2 : Nat := 0x1b873593

/-- 32-bit rotate left. -/
def rotl32 (x r : Nat) : Nat := ((x <<< r) ||| (x >>> (32 - r))) % (2 ^ 32)

/-- The block phase of 32-bit MurmurHash3: consume the input four
little-endian bytes at a time, returning the running state and the
remaining tail of fewer than four bytes. -/
def murmurBlocks : Nat → List Nat → Nat × List Nat
  | h, b0 :: b1 :: b2 :: b3 :: rest =>
    let k0 := b0 ||| (b1 <<< 8) ||| (b2 <<< 16) ||| (b3 <<< 24)
    let k1 := rotl32 ((k0 * murmurC1) % (2 ^ 32)) 15
    let k2 := (k1 * murmurC2) % (2 ^ 32)
    let h1 := rotl32 (h ^^^ k2) 13
    let h2 := (h1 * 5 + 0xe6546b64) % (2 ^ 32)
    murmurBlocks h2 rest
  | h, rest => (h, rest)

/-- The tail phase of 32-bit MurmurHash3: mix in the final one to three
bytes; an empty tail is not mixed. -/
def murmurTailMix (h : Nat) (rest : List Nat) : Nat :=
  match rest with
  | [] => h
  | _ =>
    let k0 := match rest with
      | [b0] => b0
      | [b0, b1] => b0 ||| (b1 <<< 8)
      | [b0, b1, b2] => b0 ||| (b1 <<< 8) ||| (b2 <<< 16)
      | _ => 0
    let k1 := rotl32 ((k0 * murmurC1) % (2 ^ 32)) 15
    let k2 := (k1 * murmurC2) % (2 ^ 32)
    h ^^^ k2

/-- The finalisation mix of 32-bit MurmurHash3. -/
def fmix32 (h0 : Nat) : Nat :=
  let h1 := h0 ^^^ (h0 >>> 16)
  let h2 := (h1 * 0x85ebca6b) % (2 ^ 32)
  let h3 := h2 ^^^ (h2 >>> 13)
  let h4 := (h3 * 0xc2b2ae35) % (2 ^ 32)
  h4 ^^^ (h4 >>> 16)

/-- 32-bit MurmurHash3 of a byte sequence with a seed, as computed by the
`murmur3` crate's `murmur3_32` used by `strategy.rs`. -/
def murmur3_32 (bytes : List Nat) (seed : Nat) : Nat :=
  let hb := murmurBlocks seed bytes
  let h := murmurTailMix hb.1 hb.2
  fmix32 (h ^^^ (bytes.length % (2 ^ 32)))

/-- `strategy.rs` `normalised_hash`: murmur3 (seed 0) of
`"{group}:{identifier}"`, reduced `% modulus`.  The Rust function returns
`std::io::Result<u32>` but reading from an in-memory cursor cannot fail, so
the embedding is total.  (Rust `%` by a zero modulus would panic; every call
site in scope has a positive modulus.) -/
def normalised_hash (group identifier : String) (modulus : Nat) : Nat :=
  murmur3_32 (utf8Bytes (group ++ ":" ++ identifier)) 0 % modulus

/-- Modelled from the spec (§4.1 Hasher): `normalisedHash(group, identifier,
modulus, seed)` returns `hash mod modulus + 1`, 1-based; the feature-rollout
wrapper uses seed 0.  This is the spec's definition, written for comparison
with the source's `normalised_hash`. -/
def specNormalisedHash (group identifier : String) (modulus : Nat) : Nat :=
  murmur3_32 (utf8Bytes (group ++ ":" ++ identifier)) 0 % modulus + 1

/-- Modelled from the spec (§4.1 Hasher): the variant-distribution wrapper
`normalisedVariantHash`, identical to `specNormalisedHash` but with seed
86028157. -/
def specNormalisedVariantHash (group identifier : String) (modulus : Nat) : Nat :=
  murmur3_32 (utf8Bytes (group ++ ":" ++ identifier)) 86028157 % modulus + 1

/-- Parameter maps (`HashMap<String, String>` in the source) as association
lists with unique keys. -/
abbrev Params : Type := List (String × String)

/-- `HashMap::get`: first-match lookup. -/
def lookup (ps : Params) (key : String) : Option String :=
  match ps with
  | [] => none
  | p :: rest => if p.1 == key then some p.2 else lookup rest key

/-- Rust `str::parse::<u32>`: an optional leading `+`, then one or more
ASCII digits; the value must fit in 32 bits. -/
def parseU32 (s : String) : Option Nat :=
  let ds := match s.data with
    | '+' :: rest => rest
    | cs => cs
  if ds.isEmpty then none
  else if ds.all Char.isDigit then
    let v := ds.foldl (fun a c => a * 10 + (c.toNat - 48)) 0
    if v < 2 ^ 32 then some v else none
  else none

/-- Rust `str::parse::<u8>`: as `parseU32` but the value must fit in 8
bits. -/
def parseU8 (s : String) : Option Nat :=
  let ds := match s.data with
    | '+' :: rest => rest
    | cs => cs
  if ds.isEmpty then none
  else if ds.all Char.isDigit then
    let v := ds.foldl (fun a c => a * 10 + (c.toNat - 48)) 0
    if v < 2 ^ 8 then some v else none
  else none

/-- IPv4 or IPv6 address (`std::net::IpAddr`), as its numeric value. -/
inductive IpAddr where
  | v4 (bits : Nat)
  | v6 (bits : Nat)
deriving DecidableEq

/-- `context.rs` `IPAddress`: a newtype over `IpAddr`. -/
structure IPAddress where
  addr : IpAddr
deriving DecidableEq

/-- `context.rs` `Context` as used by `strategy.rs` and `client.rs`:
`current_time` is the string-typed field of the revision `strategy.rs`
belongs to, and `properties` is an association list. -/
structure Context where
  user_id : Option String := none
  session_id : Option String := none
  remote_address : Option IPAddress := none
  properties : Params := []
  app_name : String := ""
  environment : String := ""
  current_time : String := ""

/-- `strategy.rs` `group_and_rollout`: extract the `groupId` (default `""`)
and the rollout percentage under `rollout_key` (default `0`, also on a
failed `u32` parse). -/
def group_and_rollout (parameters : Option Params) (rollout_key : String) :
    String × Nat :=
  match parameters with
  | none => ("", 0)
  | some ps =>
    let group := (lookup ps "groupId").getD ""
    let rollout := match lookup ps rollout_key with
      | some rollout_str => (parseU32 rollout_str).getD 0
      | none => 0
    (group, rollout)

/-- `strategy.rs` `partial_rollout` (the name is adjusted for Lean): false
when the variable is absent, else true iff `rollout > normalised_hash group
variable 100`.  The Rust `if let Ok(..)` never takes its `else` branch. -/
def rollout_hit (group : String) (v? : Option String) (rollout : Nat) : Bool :=
  match v? with
  | none => false
  | some v => rollout > normalised_hash group v 100

/-- `strategy.rs` `_user_id`: session of `group_and_rollout` plus
`partial_rollout` keyed on `context.user_id`. -/
def _user_id (parameters : Option Params) (rollout_key : String)
    (context : Context) : Bool :=
  let gr := group_and_rollout parameters rollout_key
  rollout_hit gr.1 context.user_id gr.2

/-- `strategy.rs` `_session_id`: as `_user_id` but keyed on
`context.session_id`. -/
def _session_id (parameters : Option Params) (rollout_key : String)
    (context : Context) : Bool :=
  let gr := group_and_rollout parameters rollout_key
  rollout_hit gr.1 context.session_id gr.2

/-- `strategy.rs` `user_id` (the `gradualRolloutUserId` strategy). -/
def user_id (parameters : Option Params) (context : Context) : Bool :=
  _user_id parameters "percentage" context

/-- `strategy.rs` `session_id` (the `gradualRolloutSessionId` strategy). -/
def session_id (parameters : Option Params) (context : Context) : Bool :=
  _session_id parameters "percentage" context

/-- `strategy.rs` `_random`: true iff the configured percentage exceeds the
drawn value (`rand % 100` models `gen_range(0..100)`). -/
def _random (parameters : Option Params) (rollout_key : String) (rand : Nat)
    (_context : Context) : Bool :=
  let pct := match parameters with
    | none => 0
    | some ps => match lookup ps rollout_key with
      | some pct_str => (parseU8 pct_str).getD 0
      | none => 0
  pct > rand % 100

/-- `strategy.rs` `flexible_rollout`: dispatch on the `stickiness`
parameter; missing parameters or missing/unknown stickiness compile to
constant false. -/
def flexible_rollout (parameters : Option Params) (rand : Nat)
    (context : Context) : Bool :=
  match parameters with
  | none => false
  | some ps =>
    match lookup ps "stickiness" with
    | none => false
    | some stickiness =>
      if stickiness == "default" then
        let gr := group_and_rollout (some ps) "rollout"
        if context.user_id.isSome then rollout_hit gr.1 context.user_id gr.2
        else if context.session_id.isSome then
          rollout_hit gr.1 context.session_id gr.2
        else gr.2 > rand % 100
      else if stickiness == "userId" then _user_id (some ps) "rollout" context
      else if stickiness == "sessionId" then
        _session_id (some ps) "rollout" context
      else if stickiness == "random" then _random (some ps) "rollout" rand context
      else false

/-- The numeric value of a list of ASCII digits. -/
def digitsVal (ds : List Char) : Nat :=
  ds.foldl (fun a c => a * 10 + (c.toNat - 48)) 0

/-- Rust `str::to_lowercase`, modelled per character; exact on ASCII, which
is all the constraint evaluator's inputs in scope use (full Unicode case
mapping is not modelled). -/
def lowercase (s : String) : String := String.mk (s.data.map Char.toLower)

/-- Byte-order comparison of ASCII strings as character lists (Rust `str`
comparison restricted to ASCII, which semver identifiers always are). -/
def charListCmp : List Char → List Char → Ordering
  | [], [] => .eq
  | [], _ :: _ => .lt
  | _ :: _, [] => .gt
  | a :: as, b :: bs =>
    match compare a.toNat b.toNat with
    | .eq => charListCmp as bs
    | o => o

/-- Rust `str::starts_with(&str)`: byte prefix, equivalently character
prefix for valid UTF-8. -/
def strStartsWith (v x : String) : Bool := x.data.isPrefixOf v.data

/-- Rust `str::ends_with(&str)`. -/
def strEndsWith (v x : String) : Bool := x.data.isSuffixOf v.data

/-- Substring search on character lists (UTF-8 substring matches always fall
on character boundaries). -/
def strContainsSub (needle : List Char) : List Char → Bool
  | [] => needle.isPrefixOf []
  | a :: t => needle.isPrefixOf (a :: t) || strContainsSub needle t

/-- Rust `str::contains(&str)`: `strContains v x` is `v.contains(x)`. -/
def strContains (v x : String) : Bool := strContainsSub x.data v.data

/-- `f64::EPSILON` as an exact rational. -/
def f64Epsilon : ℚ := 1 / 2 ^ 52

/-- Rust `str::parse::<f64>` modelled as exact decimal parsing into `ℚ`:
an optional sign, then digits with an optional single decimal point and at
least one digit.  `inf`/`NaN`/exponent syntax is not modelled (parses to
`none`) and no rounding to binary floating point is performed; no claim
below exercises the NUM_* operators. -/
def parseF64 (s : String) : Option ℚ :=
  let sc : ℚ × List Char := match s.data with
    | '-' :: rest => (-1, rest)
    | '+' :: rest => (1, rest)
    | cs => (1, cs)
  match sc.2.splitOn '.' with
  | [ip] =>
    if !ip.isEmpty && ip.all Char.isDigit then some (sc.1 * (digitsVal ip : ℚ))
    else none
  | [ip, fp] =>
    if (!ip.isEmpty || !fp.isEmpty) && ip.all Char.isDigit && fp.all Char.isDigit then
      some (sc.1 * ((digitsVal ip : ℚ) + (digitsVal fp : ℚ) / (10 : ℚ) ^ fp.length))
    else none
  | _ => none

/-- Days since 1970-01-01 of a civil date (Howard Hinnant's algorithm, the
calendar arithmetic chrono uses). -/
def daysFromCivil (y : Int) (m d : Nat) : Int :=
  let yAdj : Int := if m ≤ 2 then y - 1 else y
  let era : Int := (if 0 ≤ yAdj then yAdj else yAdj - 399) / 400
  let yoe : Int := yAdj - era * 400
  let doy : Int :=
    (153 * ((m : Int) + (if 2 < m then -3 else 9)) + 2) / 5 + (d : Int) - 1
  let doe : Int := yoe * 365 + yoe / 4 - yoe / 100 + doy
  era * 146097 + doe - 719468

/-- Gregorian leap year. -/
def isLeapYear (y : Int) : Bool := (y % 4 == 0 && y % 100 != 0) || y % 400 == 0

/-- Length of a month. -/
def daysInMonth (y : Int) (m : Nat) : Nat :=
  if m == 2 then (if isLeapYear y then 29 else 28)
  else if m == 4 || m == 6 || m == 9 || m == 11 then 30
  else 31

/-- Read exactly `n` ASCII digits from the front of a character list,
returning their value and the rest. -/
def readNDigits : Nat → List Char → Option (Nat × List Char)
  | 0, cs => some (0, cs)
  | Nat.succ k, c :: rest =>
    if c.isDigit then
      (readNDigits k rest).map (fun p => ((c.toNat - 48) * 10 ^ k + p.1, p.2))
    else none
  | Nat.succ _, [] => none

/-- Require a specific character at the front of a character list. -/
def expectChar (c : Char) : List Char → Option (List Char)
  | a :: rest => if a == c then some rest else none
  | [] => none

/-- A `±HH:MM` timezone offset (after the sign), in minutes; the input must
be fully consumed. -/
def parseTzOffset (cs : List Char) : Option Int := do
  let (hh, cs) ← readNDigits 2 cs
  let cs ← expectChar ':' cs
  let (mm, cs) ← readNDigits 2 cs
  if cs.isEmpty && hh ≤ 23 && mm ≤ 59 then some ((hh : Int) * 60 + (mm : Int))
  else none

/-- chrono `DateTime::parse_from_rfc3339`, modelled as the absolute
timestamp in seconds (a rational, carrying fractional seconds):
`YYYY-MM-DDTHH:MM:SS[.frac](Z|±HH:MM)` with `T`/`t`/`z` case accepted.
A leap-second `:60` field is accepted and ordered as written (chrono's
internal leap-second encoding is not reproduced); no claim below exercises
the DATE_* operators. -/
def parseRfc3339 (s : String) : Option ℚ := do
  let cs := s.data
  let (y, cs) ← readNDigits 4 cs
  let cs ← expectChar '-' cs
  let (mo, cs) ← readNDigits 2 cs
  let cs ← expectChar '-' cs
  let (d, cs) ← readNDigits 2 cs
  let cs ← match cs with
    | c :: rest => if c == 'T' || c == 't' then some rest else none
    | [] => none
  let (h, cs) ← readNDigits 2 cs
  let cs ← expectChar ':' cs
  let (mi, cs) ← readNDigits 2 cs
  let cs ← expectChar ':' cs
  let (sec, cs) ← readNDigits 2 cs
  let fr : ℚ × List Char ← (match cs with
    | '.' :: rest =>
      let ds := rest.takeWhile Char.isDigit
      if ds.isEmpty then none
      else some ((digitsVal ds : ℚ) / (10 : ℚ) ^ ds.length,
        rest.dropWhile Char.isDigit)
    | _ => some ((0 : ℚ), cs))
  let offMinutes : Int ← (match fr.2 with
    | ['Z'] => some 0
    | ['z'] => some 0
    | '+' :: rest => parseTzOffset rest
    | '-' :: rest => (parseTzOffset rest).map (fun o => -o)
    | _ => none)
  if 1 ≤ mo && mo ≤ 12 && 1 ≤ d && d ≤ daysInMonth (y : Int) mo &&
      h ≤ 23 && mi ≤ 59 && sec ≤ 60 then
    some (((daysFromCivil (y : Int) mo d) * 86400 +
        (h : Int) * 3600 + (mi : Int) * 60 + (sec : Int) - offMinutes * 60 : Int) + fr.1)
  else none

/-- A parsed `semver::Version`. -/
structure Version where
  major : Nat
  minor : Nat
  patch : Nat
  pre : List String
  build : List String
deriving DecidableEq

/-- Split a character list at the first occurrence of `c`; the second
component is `none` when `c` does not occur. -/
def splitAtFirst (c : Char) : List Char → List Char × Option (List Char)
  | [] => ([], none)
  | a :: t =>
    if a == c then ([], some t)
    else
      let r := splitAtFirst c t
      (a :: r.1, r.2)

/-- A non-empty all-digit numeral without a leading zero (semver's numeric
identifier rule), fitting in `u64`. -/
def semverNumericOk (ds : List Char) : Bool :=
  !ds.isEmpty && ds.all Char.isDigit &&
    (ds.length == 1 || ds.head? != some '0') && digitsVal ds < 2 ^ 64

/-- The characters semver identifiers may contain. -/
def semverIdentChar (c : Char) : Bool := c.isAlphanum || c == '-'

/-- A valid prerelease identifier: non-empty, alphanumeric/hyphen, and when
all digits it must have no leading zero and fit `u64`. -/
def semverPreIdentOk (ds : List Char) : Bool :=
  !ds.isEmpty && ds.all semverIdentChar &&
    (!(ds.all Char.isDigit) || ((ds.length == 1 || ds.head? != some '0') &&
      digitsVal ds < 2 ^ 64))

/-- A valid build-metadata identifier: non-empty, alphanumeric/hyphen. -/
def semverBuildIdentOk (ds : List Char) : Bool :=
  !ds.isEmpty && ds.all semverIdentChar

/-- `semver::Version::from_str` (per the `semver` crate, major version 1):
`MAJOR.MINOR.PATCH` with optional `-PRERELEASE` and `+BUILD`. -/
def parseVersion (s : String) : Option Version :=
  let bb := splitAtFirst '+' s.data
  let cp := splitAtFirst '-' bb.1
  match cp.1.splitOn '.' with
  | [a, b, c] =>
    if semverNumericOk a && semverNumericOk b && semverNumericOk c then do
      let pre ← match cp.2 with
        | none => some []
        | some p =>
          let ids := p.splitOn '.'
          if ids.all semverPreIdentOk then some (ids.map String.mk) else none
      let build ← match bb.2 with
        | none => some []
        | some bch =>
          let ids := bch.splitOn '.'
          if ids.all semverBuildIdentOk then some (ids.map String.mk) else none
      some ⟨digitsVal a, digitsVal b, digitsVal c, pre, build⟩
    else none
  | _ => none

/-- semver prerelease-identifier precedence: numeric identifiers sort below
alphanumeric ones and compare numerically; alphanumeric ones compare in
ASCII order. -/
def preIdCmp (a b : String) : Ordering :=
  match a.data.all Char.isDigit, b.data.all Char.isDigit with
  | true, true => compare (digitsVal a.data) (digitsVal b.data)
  | true, false => .lt
  | false, true => .gt
  | false, false => charListCmp a.data b.data

/-- Identifier-list precedence: position by position, a shorter list sorting
below its extensions. -/
def preListCmp : List String → List String → Ordering
  | [], [] => .eq
  | [], _ :: _ => .lt
  | _ :: _, [] => .gt
  | a :: as, b :: bs =>
    match preIdCmp a b with
    | .eq => preListCmp as bs
    | o => o

/-- `semver::Prerelease` ordering: an empty prerelease (a full release)
sorts above any prerelease. -/
def preCmp (a b : List String) : Ordering :=
  match a, b with
  | [], [] => .eq
  | [], _ :: _ => .gt
  | _ :: _, [] => .lt
  | _, _ => preListCmp a b

/-- `semver::BuildMetadata` identifier ordering: all-digit identifiers sort
below others and compare by length then ASCII (leading zeros retained). -/
def buildIdCmp (a b : String) : Ordering :=
  match a.data.all Char.isDigit, b.data.all Char.isDigit with
  | true, true =>
    match compare a.data.length b.data.length with
    | .eq => charListCmp a.data b.data
    | o => o
  | true, false => .lt
  | false, true => .gt
  | false, false => charListCmp a.data b.data

/-- Identifier-list ordering for build metadata. -/
def buildListCmp : List String → List String → Ordering
  | [], [] => .eq
  | [], _ :: _ => .lt
  | _ :: _, [] => .gt
  | a :: as, b :: bs =>
    match buildIdCmp a b with
    | .eq => buildListCmp as bs
    | o => o

/-- `semver::BuildMetadata` ordering: empty sorts first. -/
def buildCmp (a b : List String) : Ordering :=
  match a, b with
  | [], [] => .eq
  | [], _ :: _ => .lt
  | _ :: _, [] => .gt
  | _, _ => buildListCmp a b

/-- `Ord` for `semver::Version` (crate version 1): major, minor, patch,
prerelease precedence, then build metadata as the final tiebreaker. -/
def versionCmp (a b : Version) : Ordering :=
  match compare a.major b.major with
  | .eq =>
    match compare a.minor b.minor with
    | .eq =>
      match compare a.patch b.patch with
      | .eq =>
        match preCmp a.pre b.pre with
        | .eq => buildCmp a.build b.build
        | o => o
      | o => o
    | o => o
  | o => o

/-- Rust `<` on `semver::Version`. -/
def versionLt (a b : Version) : Bool := versionCmp a b == Ordering.lt

/-- One IPv4 dotted-quad octet (Rust `std` rejects leading zeros). -/
def parseIpv4Octet (cs : List Char) : Option Nat :=
  if !cs.isEmpty && cs.all Char.isDigit && cs.length ≤ 3 &&
      (cs.length == 1 || cs.head? != some '0') then
    let v := digitsVal cs
    if v ≤ 255 then some v else none
  else none

/-- `Ipv4Addr::from_str` as the 32-bit value. -/
def parseIpv4 (s : String) : Option Nat :=
  match s.data.splitOn '.' with
  | [a, b, c, d] => do
    let a ← parseIpv4Octet a
    let b ← parseIpv4Octet b
    let c ← parseIpv4Octet c
    let d ← parseIpv4Octet d
    some ((a <<< 24) ||| (b <<< 16) ||| (c <<< 8) ||| d)
  | _ => none

/-- `std::net::IpAddr::from_str`.  IPv6 textual forms are not modelled
(they parse to `none`); no claim below evaluates an IPv6 literal. -/
def parseIpAddr (s : String) : Option IpAddr := (parseIpv4 s).map IpAddr.v4

/-- An `ipnet::IpNet`: an address plus a mask length. -/
structure IpNet where
  addr : IpAddr
  plen : Nat
deriving DecidableEq

/-- `ipnet::IpNet::from_str`: `address/len`, with the mask length bounded by
the address width. -/
def parseIpNet (s : String) : Option IpNet :=
  match splitAtFirst '/' s.data with
  | (a, some p) => do
    let addr ← parseIpAddr (String.mk a)
    let pl ← parseU8 (String.mk p)
    match addr with
    | .v4 _ => if pl ≤ 32 then some ⟨addr, pl⟩ else none
    | .v6 _ => if pl ≤ 128 then some ⟨addr, pl⟩ else none
  | (_, none) => none

/-- `strategy.rs` `_parse_ip`: first as a network, else as a bare address
with a full-length mask. -/
def _parse_ip (s : String) : Option IpNet :=
  match parseIpNet s with
  | some n => some n
  | none =>
    (parseIpAddr s).map (fun a =>
      match a with
      | .v4 b => ⟨.v4 b, 32⟩
      | .v6 b => ⟨.v6 b, 128⟩)

/-- `IpNet::contains(&IpAddr)`: same family and equal upper `plen` bits
(both sides network-masked). -/
def ipNetContains (net : IpNet) (a : IpAddr) : Bool :=
  match net.addr, a with
  | .v4 n, .v4 b => (n >>> (32 - net.plen)) == (b >>> (32 - net.plen))
  | .v6 n, .v6 b => (n >>> (128 - net.plen)) == (b >>> (128 - net.plen))
  | _, _ => false

/-- Rust `str::trim`, at character level (ASCII whitespace; the handful of
non-ASCII Unicode whitespace characters are not modelled). -/
def trimStr (s : String) : String :=
  String.mk
    (((s.data.dropWhile Char.isWhitespace).reverse.dropWhile
      Char.isWhitespace).reverse)

/-- `strategy.rs` `_ip_to_vec`: parse each trimmed entry, dropping (with a
warning in the source) the ones that fail to parse. -/
def _ip_to_vec (ips : List String) : List IpNet :=
  ips.filterMap (fun s => _parse_ip (trimStr s))

/-- `api.rs` `ConstraintExpression` in the shape the `strategy.rs` revision
under verification consumes: scalar operands are raw strings, parsed at
strategy-compile time. -/
inductive ConstraintExpression where
  | In (values : List String)
  | NotIn (values : List String)
  | StrStartsWith (values : List String) (case_insensitive : Option Bool)
  | StrEndsWith (values : List String) (case_insensitive : Option Bool)
  | StrContains (values : List String) (case_insensitive : Option Bool)
  | NumEq (value : String)
  | NumGt (value : String)
  | NumGte (value : String)
  | NumLt (value : String)
  | NumLte (value : String)
  | DateAfter (value : String)
  | DateBefore (value : String)
  | SemverEq (value : String)
  | SemverGt (value : String)
  | SemverLt (value : String)
deriving DecidableEq

/-- `api.rs` `Constraint` as consumed by `strategy.rs`. -/
structure Constraint where
  context_name : String
  inverted : Option Bool
  expression : ConstraintExpression
deriving DecidableEq

/-- `strategy.rs` `_handle_inversion`. -/
def _handle_inversion (value : Bool) (inverted : Option Bool) : Bool :=
  if inverted.getD false then !value else value

/-- `strategy.rs` `_evaluate_ordinal_constraint`; the `FromStr` parse of the
generic parameter becomes an explicit `parse` argument.  Note the argument
order the source feeds `comparator`: the constraint's own parsed value
first, then the parsed context value. -/
def _evaluate_ordinal_constraint {T : Type} (parse : String → Option T)
    (context_value : Option String) (constraint_value : T)
    (comparator : T → T → Bool) : Bool :=
  match context_value with
  | none => false
  | some v =>
    match parse v with
    | none => false
    | some x => comparator constraint_value x

/-- `strategy.rs` `_compile_constraint_string`, fused with the evaluation of
the closure it returns: `getterValue` is what the compiled closure's
`getter` yields on the context under evaluation.  Faithful to the source,
including: the successfully-parsed `SemverGt`/`SemverLt` arms and the empty
`StrContains` arm do not consult `inverted`, and the `StrStartsWith` /
`StrContains` arms ignore `case_insensitive`. -/
def evalConstraintString (expression : ConstraintExpression)
    (inverted : Option Bool) (getterValue : Option String) : Bool :=
  match expression with
  | .In values =>
    _handle_inversion
      ((getterValue.map (fun v => values.contains v)).getD false) inverted
  | .NotIn values =>
    if values.isEmpty then _handle_inversion false inverted
    else
      _handle_inversion
        ((getterValue.map (fun v => !values.contains v)).getD false) inverted
  | .StrStartsWith values _case_insensitive =>
    if values.isEmpty then _handle_inversion false inverted
    else
      _handle_inversion
        ((getterValue.map (fun v =>
          values.any (fun x => strStartsWith v x))).getD false) inverted
  | .StrEndsWith values case_insensitive =>
    if values.isEmpty then _handle_inversion false inverted
    else
      let ci := case_insensitive.getD false
      let as_vec := if ci then values.map lowercase else values
      _handle_inversion
        ((getterValue.map (fun v =>
          as_vec.any (fun x =>
            if ci then strEndsWith (lowercase v) x
            else strEndsWith v x))).getD false) inverted
  | .StrContains values _case_insensitive =>
    if values.isEmpty then false
    else
      _handle_inversion
        ((getterValue.map (fun v =>
          values.any (fun x => strContains v x))).getD false) inverted
  | .NumEq value =>
    match parseF64 value with
    | some pv =>
      _handle_inversion
        ((getterValue.map (fun v =>
          ((parseF64 v).map (fun x => decide (|x - pv| < f64Epsilon))).getD
            false)).getD false) inverted
    | none => _handle_inversion false inverted
  | .NumGt value =>
    match parseF64 value with
    | some pv =>
      _handle_inversion
        (_evaluate_ordinal_constraint parseF64 getterValue pv
          (fun cv x => decide (cv < x))) inverted
    | none => _handle_inversion false inverted
  | .NumGte value =>
    match parseF64 value with
    | some pv =>
      _handle_inversion
        (_evaluate_ordinal_constraint parseF64 getterValue pv
          (fun cv x => decide (cv ≤ x))) inverted
    | none => _handle_inversion false inverted
  | .NumLt value =>
    match parseF64 value with
    | some pv =>
      _handle_inversion
        (_evaluate_ordinal_constraint parseF64 getterValue pv
          (fun cv x => decide (x < cv))) inverted
    | none => _handle_inversion false inverted
  | .NumLte value =>
    match parseF64 value with
    | some pv =>
      _handle_inversion
        (_evaluate_ordinal_constraint parseF64 getterValue pv
          (fun cv x => decide (x ≤ cv))) inverted
    | none => _handle_inversion false inverted
  | .DateAfter value =>
    match parseRfc3339 value with
    | some pv =>
      _handle_inversion
        (_evaluate_ordinal_constraint parseRfc3339 getterValue pv
          (fun cv x => decide (cv < x))) inverted
    | none => _handle_inversion false inverted
  | .DateBefore value =>
    match parseRfc3339 value with
    | some pv =>
      _handle_inversion
        (_evaluate_ordinal_constraint parseRfc3339 getterValue pv
          (fun cv x => decide (x < cv))) inverted
    | none => _handle_inversion false inverted
  | .SemverEq value =>
    match parseVersion value with
    | some pv =>
      _handle_inversion
        (_evaluate_ordinal_constraint parseVersion getterValue pv
          (fun cv x => cv == x)) inverted
    | none => _handle_inversion false inverted
  | .SemverGt value =>
    match parseVersion value with
    | some pv =>
      (getterValue.map (fun v =>
        ((parseVersion v).map (fun x => versionLt pv x)).getD false)).getD false
    | none => _handle_inversion false inverted
  | .SemverLt value =>
    match parseVersion value with
    | some pv =>
      (getterValue.map (fun v =>
        ((parseVersion v).map (fun x => versionLt x pv)).getD false)).getD false
    | none => _handle_inversion false inverted

/-- `strategy.rs` `_compile_constraint_host`, fused with evaluation; the
source never consults `inverted` in this function, and any operator other
than `In`/`NotIn` is constant false. -/
def evalConstraintHost (expression : ConstraintExpression)
    (_inverted : Option Bool) (getterValue : Option IPAddress) : Bool :=
  match expression with
  | .In values =>
    let ips := _ip_to_vec values
    (getterValue.map (fun ra =>
      ips.any (fun ip => ipNetContains ip ra.addr))).getD false
  | .NotIn values =>
    if values.isEmpty then false
    else
      let ips := _ip_to_vec values
      (getterValue.map (fun ra =>
        if ips.isEmpty then false
        else ips.all (fun ip => !ipNetContains ip ra.addr))).getD false
  | _ => false

/-- `strategy.rs` `_compile_constraints`: dispatch one constraint's getter
by `context_name`, fused with evaluation. -/
def evalConstraint (c : Constraint) (context : Context) : Bool :=
  match c.context_name with
  | "appName" => evalConstraintString c.expression c.inverted (some context.app_name)
  | "currentTime" =>
    evalConstraintString c.expression c.inverted (some context.current_time)
  | "environment" =>
    evalConstraintString c.expression c.inverted (some context.environment)
  | "remoteAddress" => evalConstraintHost c.expression c.inverted context.remote_address
  | "sessionId" => evalConstraintString c.expression c.inverted context.session_id
  | "userId" => evalConstraintString c.expression c.inverted context.user_id
  | _ =>
    evalConstraintString c.expression c.inverted
      (lookup context.properties c.context_name)

/-- `strategy.rs` `constrain`, with the strategy already applied to its
parameters (the source calls `strategy(parameters)` first): no or empty
constraints bypass; otherwise every constraint must hold before the
compiled strategy is consulted. -/
def constrain (constraints : Option (List Constraint))
    (compiled_strategy : Context → Bool) (context : Context) : Bool :=
  match constraints with
  | none => compiled_strategy context
  | some cs =>
    if cs.isEmpty then compiled_strategy context
    else if cs.all (fun c => evalConstraint c context) then compiled_strategy context
    else false

/-- `api.rs` `VariantOverride`. -/
structure VariantOverride where
  context_name : String
  values : List String
deriving DecidableEq

/-- `client.rs` `CachedVariant`; its atomic `count` metric is not part of
the pure evaluation result and is left out of the embedding. -/
structure CachedVariant where
  name : String
  weight : Nat
  payload : Option Params := none
  overrides : Option (List VariantOverride) := none
deriving DecidableEq

/-- `client.rs` `Variant`, the public result type. -/
structure Variant where
  name : String
  payload : Params
  enabled : Bool
deriving DecidableEq

/-- `client.rs` `Variant::disabled()`. -/
def Variant.disabled : Variant := { name := "disabled", payload := [], enabled := false }

/-- `client.rs` `impl From<&CachedVariant> for Variant`. -/
def variantFromCached (v : CachedVariant) : Variant :=
  { name := v.name, payload := v.payload.getD [], enabled := true }

/-- `client.rs` `CachedFeature`; the atomic counters are modelled by the
pure metric functions below. -/
structure CachedFeature where
  strategies : List (Context → Bool)
  known : Bool
  feature_disabled : Bool
  variants : List CachedVariant

/-- `Context::default()` of the revision `strategy.rs` belongs to (every
field empty). -/
def defaultContext : Context := {}

/-- The decision logic of `client.rs` `Enabled::is_enabled` (the inner
closure): empty strategies on a known, non-disabled feature enable it; else
the first matching strategy enables it; else an unknown feature yields the
default and a known one false. -/
def featureIsEnabled (feature : CachedFeature) (context : Context) (dflt : Bool) : Bool :=
  if feature.strategies.isEmpty && feature.known && !feature.feature_disabled then true
  else if feature.strategies.any (fun memo => memo context) then true
  else if !feature.known then dflt
  else false

/-- Which metric counter a call increments. -/
inductive MetricRecord where
  | yes
  | no
deriving DecidableEq

/-- The counter `Enabled::is_enabled` increments: exactly one of
`enabled`/`disabled`, according to the result. -/
def featureIsEnabledMetric (feature : CachedFeature) (context : Context)
    (dflt : Bool) : MetricRecord :=
  if featureIsEnabled feature context dflt then .yes else .no

/-- The counter `Enabled::is_enabled_str` increments on a feature found in
the snapshot: as `is_enabled`, except that a known feature that missed all
strategies increments nothing. -/
def featureIsEnabledStrMetric (feature : CachedFeature) (context : Context)
    (dflt : Bool) : Option MetricRecord :=
  if feature.strategies.isEmpty && feature.known && !feature.feature_disabled then
    some .yes
  else if feature.strategies.any (fun memo => memo context) then some .yes
  else if !feature.known then some (if dflt then .yes else .no)
  else none

/-- `client.rs` `CachedState`: the enum-keyed feature map as a total
function, plus the string-keyed features. -/
structure CachedState (F : Type) where
  features : F → CachedFeature
  str_features : List (String × CachedFeature)

/-- `HashMap::get` over the string-keyed features. -/
def lookupStrFeature (fs : List (String × CachedFeature)) (name : String) :
    Option CachedFeature :=
  match fs with
  | [] => none
  | p :: rest => if p.1 == name then some p.2 else lookupStrFeature rest name

/-- `client.rs` `Client::is_enabled`: a null snapshot returns false before
any metric is touched; otherwise delegate to the snapshot's `is_enabled`,
substituting a default context when none was given. -/
def clientIsEnabled {F : Type} (cached_state : Option (CachedState F))
    (feature_enum : F) (context : Option Context) (dflt : Bool) : Bool :=
  match cached_state with
  | none => false
  | some cache =>
    featureIsEnabled (cache.features feature_enum) (context.getD defaultContext) dflt

/-- The metric effect of `Client::is_enabled`: none on a null snapshot. -/
def clientIsEnabledMetric {F : Type} (cached_state : Option (CachedState F))
    (feature_enum : F) (context : Option Context) (dflt : Bool) :
    Option MetricRecord :=
  match cached_state with
  | none => none
  | some cache =>
    some (featureIsEnabledMetric (cache.features feature_enum)
      (context.getD defaultContext) dflt)

/-- `client.rs` `Client::is_enabled_str` (string features enabled): a null
snapshot returns false; a feature missing from the snapshot returns the
default (the RCU path also inserts a metrics stub). -/
def clientIsEnabledStr {F : Type} (cached_state : Option (CachedState F))
    (feature_name : String) (context : Option Context) (dflt : Bool) : Bool :=
  match cached_state with
  | none => false
  | some cache =>
    match lookupStrFeature cache.str_features feature_name with
    | some feature => featureIsEnabled feature (context.getD defaultContext) dflt
    | none => dflt

/-- The metric effect of `Client::is_enabled_str`: none on a null snapshot;
on a missing feature the RCU stub records the default. -/
def clientIsEnabledStrMetric {F : Type} (cached_state : Option (CachedState F))
    (feature_name : String) (context : Option Context) (dflt : Bool) :
    Option MetricRecord :=
  match cached_state with
  | none => none
  | some cache =>
    match lookupStrFeature cache.str_features feature_name with
    | some feature =>
      featureIsEnabledStrMetric feature (context.getD defaultContext) dflt
    | none => some (if dflt then .yes else .no)

/-- The dummy a (provably unreachable) out-of-range random index would
yield. -/
def dummyVariant : CachedVariant := { name := "", weight := 0 }

/-- `{:?}` formatting of `IPAddress` as `_get_variant` hashes it:
`IPAddress(a.b.c.d)` for IPv4.  The IPv6 `Debug` form is not modelled
exactly; no claim evaluates it. -/
def ipDebugString (ip : IPAddress) : String :=
  match ip.addr with
  | .v4 b =>
    "IPAddress(" ++ toString ((b >>> 24) % 256) ++ "." ++
      toString ((b >>> 16) % 256) ++ "." ++ toString ((b >>> 8) % 256) ++ "." ++
      toString (b % 256) ++ ")"
  | .v6 b => "IPAddress(" ++ toString b ++ ")"

/-- The identifier `_get_variant` hashes: the first of `user_id`,
`session_id`, or the `{:?}` form of the remote address. -/
def contextIdentifier (context : Context) : Option String :=
  context.user_id.or (context.session_id.or (context.remote_address.map ipDebugString))

/-- The weight-accumulation walk of `client.rs` `_get_variant`: the first
variant whose running total exceeds the selected weight. -/
def selectVariant : List CachedVariant → Nat → Nat → Option CachedVariant
  | [], _, _ => none
  | v :: rest, counter, selected =>
    let counter := counter + v.weight
    if counter > selected then some v else selectVariant rest counter selected

/-- `client.rs` `Client::_get_variant`.  `randPick` models the
`gen_range(0..len)` draw of the no-identifier branch (reduced `% len`).
A Rust `total_weight` of zero would panic in `normalised_hash` (`% 0`);
that state is unreachable through `memoize`, which drops zero-weight
variants. -/
def _get_variant (feature : CachedFeature) (feature_name : String)
    (context : Context) (randPick : Nat) : Variant :=
  if feature.variants.isEmpty then Variant.disabled
  else
    match contextIdentifier context with
    | none =>
      variantFromCached
        (feature.variants.getD (randPick % feature.variants.length) dummyVariant)
    | some identifier =>
      let total_weight := (feature.variants.map (fun v => v.weight)).sum
      let selected_weight := normalised_hash feature_name identifier total_weight
      match selectVariant feature.variants 0 selected_weight with
      | some v => variantFromCached v
      | none => Variant.disabled

/-- `client.rs` `Client::get_variant` after the snapshot fetch: `is_enabled`
with default false; the disabled sentinel when false, else `_get_variant`. -/
def featureGetVariant (feature : CachedFeature) (feature_name : String)
    (context : Context) (randPick : Nat) : Variant :=
  if !(featureIsEnabled feature context false) then Variant.disabled
  else _get_variant feature feature_name context randPick

/-- `api.rs` `Strategy`. -/
structure ApiStrategy where
  constraints : Option (List Constraint) := none
  name : String
  parameters : Option Params := none

/-- `api.rs` `Variant`. -/
structure ApiVariant where
  name : String
  weight : Nat
  payload : Option Params := none
  overrides : Option (List VariantOverride) := none
deriving DecidableEq

/-- `api.rs` `Feature` (the fields the compiler reads). -/
structure ApiFeature where
  name : String
  enabled : Bool
  strategies : List ApiStrategy
  variants : Option (List ApiVariant) := none

/-- `client.rs` `From<api::Variant> for CachedVariant`. -/
def cachedVariantOfApi (v : ApiVariant) : CachedVariant :=
  { name := v.name, weight := v.weight, payload := v.payload, overrides := v.overrides }

/-- The per-feature compilation step of `client.rs` `Client::memoize`;
`source_strategies` is the registered strategy table (name → compiler).
A feature with `enabled = false` compiles to the disabled short-circuit
(no strategies, no variants, `known`, `feature_disabled`); otherwise known
strategies are compiled and constraint-wrapped in order (unknown names are
skipped) and zero-weight variants are dropped. -/
def memoizeFeature
    (source_strategies : String → Option (Option Params → Context → Bool))
    (feature : ApiFeature) : CachedFeature :=
  if !feature.enabled then
    { strategies := [], known := true, feature_disabled := true, variants := [] }
  else
    { strategies := feature.strategies.filterMap (fun s =>
        (source_strategies s.name).map (fun code =>
          fun context => constrain s.constraints (code s.parameters) context)),
      known := true,
      feature_disabled := false,
      variants := ((feature.variants.getD []).filter
        (fun v => 0 < v.weight)).map cachedVariantOfApi }

/-- Modelled from the spec (§4.7 step 4): the walk taking the first variant
whose running total is `≥` the (1-based) selected value; for comparison
with the source's `selectVariant`. -/
def specSelectVariant : List CachedVariant → Nat → Nat → Option CachedVariant
  | [], _, _ => none
  | v :: rest, counter, selected =>
    let counter := counter + v.weight
    if counter ≥ selected then some v else specSelectVariant rest counter selected

/-- Modelled from the spec (§4.7 step 4): variant choice by
`normalisedVariantHash` (seed 86028157, 1-based result). -/
def specGetVariant (feature_name : String) (variants : List CachedVariant)
    (identifier : String) : Option CachedVariant :=
  let total_weight := (variants.map (fun v => v.weight)).sum
  specSelectVariant variants 0
    (specNormalisedVariantHash feature_name identifier total_weight)

/-- The sum of the first `k` variant weights. -/
def weightSum (vs : List CachedVariant) (k : Nat) : Nat :=
  ((vs.take k).map (fun v => v.weight)).sum

/-- Replace each variant's overrides by an arbitrary function of the
variant (for stating that overrides cannot influence evaluation). -/
def setOverrides (g : CachedVariant → Option (List VariantOverride))
    (v : CachedVariant) : CachedVariant :=
  { v with overrides := g v }

/-- The claim's `invert` operation on a constraint: set the `inverted`
flag. -/
def invertConstraint (c : Constraint) : Constraint :=
  { c with inverted := some true }

/-- C1 (counterexample): the source's `normalised_hash` at the claim's
reference input is 72, not the claimed 73: the code returns `hash % modulus`
with no `+ 1`. -/
theorem normalised_hash_gr1_123_is_72_not_73 :
    Unleash.normalised_hash "gr1" "123" 100 = 72 ∧
      Unleash.normalised_hash "gr1" "123" 100 ≠ 73 := by
  constructor <;> decide

/-- C1 (amended): `normalised_hash group identifier modulus` is the 32-bit
murmur3 (seed 0) of `group ++ ":" ++ identifier` reduced `% modulus`, so it
is 0-based, lies in `[0, modulus - 1]` for a positive modulus, and is exactly
one less than the spec's 1-based `normalisedHash`; in particular
`normalised_hash "gr1" "123" 100 = 72`. -/
theorem normalised_hash_zero_based (group identifier : String) (modulus : Nat)
    (h : 0 < modulus) :
    Unleash.normalised_hash group identifier modulus < modulus ∧
      Unleash.specNormalisedHash group identifier modulus =
        Unleash.normalised_hash group identifier modulus + 1 := by
  exact ⟨Nat.mod_lt _ h, rfl⟩

/-- Witness for `normalised_hash_zero_based` at the reference input. -/
theorem normalised_hash_zero_based_witness :
    0 < 100 ∧
      (Unleash.normalised_hash "gr1" "123" 100 < 100 ∧
        Unleash.specNormalisedHash "gr1" "123" 100 =
          Unleash.normalised_hash "gr1" "123" 100 + 1) :=
  ⟨by decide, normalised_hash_zero_based "gr1" "123" 100 (by decide)⟩

/-- C8: with parameters `groupId = group` and `percentage = ps` (parsing to
`p ≤ 100`), the `gradualRolloutUserId` / `gradualRolloutSessionId` strategies
are true iff the spec's 1-based `normalisedHash(group, userId|sessionId, 100)`
is `≤ p` (the code's `p > hash % 100` is exactly `hash % 100 + 1 ≤ p`), and
false when the respective identifier is absent from the context. -/
theorem gradual_rollout_user_session_spec (group ps uid sid : String)
    (p : Nat) (hp : p ≤ 100) (hps : Unleash.parseU32 ps = some p)
    (context : Unleash.Context) :
    (context.user_id = some uid →
      (Unleash.user_id (some [("groupId", group), ("percentage", ps)]) context
          = true ↔ Unleash.specNormalisedHash group uid 100 ≤ p)) ∧
    (context.user_id = none →
      Unleash.user_id (some [("groupId", group), ("percentage", ps)]) context
        = false) ∧
    (context.session_id = some sid →
      (Unleash.session_id (some [("groupId", group), ("percentage", ps)])
          context = true ↔ Unleash.specNormalisedHash group sid 100 ≤ p)) ∧
    (context.session_id = none →
      Unleash.session_id (some [("groupId", group), ("percentage", ps)])
        context = false) := by
  refine ⟨fun hu => ?_, fun hu => ?_, fun hs => ?_, fun hs => ?_⟩ <;>
    simp [Unleash.user_id, Unleash.session_id, Unleash._user_id,
      Unleash._session_id, Unleash.group_and_rollout, Unleash.lookup, hps,
      Unleash.rollout_hit, Unleash.specNormalisedHash,
      Unleash.normalised_hash, Nat.lt_iff_add_one_le, *]

/-- Witness for `gradual_rollout_user_session_spec` at `group1`/`50`. -/
theorem gradual_rollout_user_session_spec_witness :
    (50 ≤ 100 ∧ Unleash.parseU32 "50" = some 50) ∧
    (({ user_id := some "user1", session_id := some "session1" } :
          Unleash.Context).user_id = some "user1" →
      (Unleash.user_id (some [("groupId", "group1"), ("percentage", "50")])
          { user_id := some "user1", session_id := some "session1" } = true ↔
        Unleash.specNormalisedHash "group1" "user1" 100 ≤ 50)) ∧
    (({ user_id := some "user1", session_id := some "session1" } :
          Unleash.Context).user_id = none →
      Unleash.user_id (some [("groupId", "group1"), ("percentage", "50")])
        { user_id := some "user1", session_id := some "session1" } = false) ∧
    (({ user_id := some "user1", session_id := some "session1" } :
          Unleash.Context).session_id = some "session1" →
      (Unleash.session_id (some [("groupId", "group1"), ("percentage", "50")])
          { user_id := some "user1", session_id := some "session1" } = true ↔
        Unleash.specNormalisedHash "group1" "session1" 100 ≤ 50)) ∧
    (({ user_id := some "user1", session_id := some "session1" } :
          Unleash.Context).session_id = none →
      Unleash.session_id (some [("groupId", "group1"), ("percentage", "50")])
        { user_id := some "user1", session_id := some "session1" } = false) :=
  ⟨⟨by decide, by decide⟩,
    gradual_rollout_user_session_spec "group1" "50" "user1" "session1" 50
      (by decide) (by decide) _⟩

/-- C10: `flexible_rollout` with absent parameters, or with parameters that
lack a `stickiness` key, evaluates to false for every context (and every
random draw). -/
theorem flexible_rollout_no_stickiness_false (params : List (String × String))
    (rand : Nat) (context : Unleash.Context)
    (h : Unleash.lookup params "stickiness" = none) :
    Unleash.flexible_rollout none rand context = false ∧
      Unleash.flexible_rollout (some params) rand context = false := by
  exact ⟨rfl, by simp [Unleash.flexible_rollout, h]⟩

/-- Witness for `flexible_rollout_no_stickiness_false`: parameters with a
rollout but no stickiness. -/
theorem flexible_rollout_no_stickiness_false_witness :
    Unleash.lookup [("rollout", "100"), ("groupId", "g")] "stickiness" = none ∧
      (Unleash.flexible_rollout none 7 {} = false ∧
        Unleash.flexible_rollout (some [("rollout", "100"), ("groupId", "g")])
          7 {} = false) :=
  ⟨by decide,
    flexible_rollout_no_stickiness_false [("rollout", "100"), ("groupId", "g")]
      7 {} (by decide)⟩

/-- C2 (counterexample): with no snapshot loaded, `Client::is_enabled`
returns `false` even when the caller-supplied default is `true`; the
claimed "return the caller-supplied default" fails. -/
theorem null_snapshot_default_true_cex :
    ¬ (Unleash.clientIsEnabled (none : Option (Unleash.CachedState Unit)) ()
        none true = true) := by
  decide

/-- C2 (amended): with no snapshot loaded (`cached_state` is null), both
`is_enabled` and `is_enabled_str` return `false` — not the caller-supplied
default — and record no metric, for every feature, context and default. -/
theorem null_snapshot_false_no_metric {F : Type} (feature_enum : F)
    (feature_name : String) (context : Option Unleash.Context) (dflt : Bool) :
    Unleash.clientIsEnabled (none : Option (Unleash.CachedState F))
        feature_enum context dflt = false ∧
      Unleash.clientIsEnabledMetric (none : Option (Unleash.CachedState F))
        feature_enum context dflt = none ∧
      Unleash.clientIsEnabledStr (none : Option (Unleash.CachedState F))
        feature_name context dflt = false ∧
      Unleash.clientIsEnabledStrMetric (none : Option (Unleash.CachedState F))
        feature_name context dflt = none :=
  ⟨rfl, rfl, rfl, rfl⟩

/-- C3: inverting a constraint does not always negate it.  On the failing
input — a successfully parsed `SEMVER_GT` constraint — the source skips
`_handle_inversion`, so the inverted constraint evaluates exactly like the
non-inverted one instead of its negation. -/
theorem constraint_inversion_fails_for_semver_gt :
    Unleash.evalConstraint
        (Unleash.invertConstraint ⟨"environment", none, .SemverGt "1.0.0"⟩)
        { environment := "2.0.0" } = true ∧
      Unleash.evalConstraint ⟨"environment", none, .SemverGt "1.0.0"⟩
        { environment := "2.0.0" } = true ∧
      ¬ (Unleash.evalConstraint
          (Unleash.invertConstraint ⟨"environment", none, .SemverGt "1.0.0"⟩)
          { environment := "2.0.0" } =
        !(Unleash.evalConstraint ⟨"environment", none, .SemverGt "1.0.0"⟩
          { environment := "2.0.0" })) := by
  refine ⟨by decide, by decide, by decide⟩

/-- C4 (counterexample): a non-inverted `NOT_IN` constraint with an empty
values list evaluates to `false` on a concrete context, not `true` as
claimed. -/
theorem empty_not_in_cex :
    Unleash.evalConstraint ⟨"environment", none, .NotIn []⟩
      { environment := "development" } = false := by
  decide

/-- C4 (amended): for every context name, context and non-inverted flag, a
`NOT_IN` constraint with an empty values list evaluates to `false` (the
string arms wrap `false` with `_handle_inversion`; the `remoteAddress` arm
is constant false). -/
theorem empty_not_in_evaluates_false (name : String) (inv : Option Bool)
    (context : Unleash.Context) (h : inv = none ∨ inv = some false) :
    Unleash.evalConstraint ⟨name, inv, .NotIn []⟩ context = false := by
  have hs : ∀ g, Unleash.evalConstraintString (.NotIn []) inv g = false := by
    intro g
    rcases h with h | h <;> subst h <;> rfl
  have hh : ∀ a, Unleash.evalConstraintHost (.NotIn []) inv a = false :=
    fun _ => rfl
  unfold Unleash.evalConstraint
  split <;> first | exact hs _ | exact hh _

/-- Witness for `empty_not_in_evaluates_false` on the `userId` dispatch. -/
theorem empty_not_in_evaluates_false_witness :
    ((none : Option Bool) = none ∨ (none : Option Bool) = some false) ∧
      Unleash.evalConstraint ⟨"userId", none, .NotIn []⟩
        { user_id := some "fred" } = false :=
  ⟨Or.inl rfl,
    empty_not_in_evaluates_false "userId" none { user_id := some "fred" }
      (Or.inl rfl)⟩

/-- C5 (counterexample): for feature `two` with variants
`variantone`/`varianttwo` of weight 50 each and identifier `user1`, the
source picks `varianttwo` (seed-0 hash, 0-based, strict `>` walk), while
the claimed algorithm — seed 86028157, 1-based, `≥` walk — picks
`variantone`. -/
theorem variant_seed_mismatch_cex :
    (Unleash._get_variant
        ⟨[], true, false,
          [⟨"variantone", 50, none, none⟩, ⟨"varianttwo", 50, none, none⟩]⟩
        "two" { user_id := some "user1" } 0).name = "varianttwo" ∧
      (Unleash.specGetVariant "two"
          [⟨"variantone", 50, none, none⟩, ⟨"varianttwo", 50, none, none⟩]
          "user1").map Unleash.CachedVariant.name = some "variantone" := by
  refine ⟨by decide, by decide⟩

/-- C6 (counterexample): an override on `userId = "u7"` attached to
`varianttwo` does not select it: for context `{userId: "u7"}` the hash walk
picks `variantone`, the override being ignored. -/
theorem override_ignored_cex :
    (Unleash._get_variant
        ⟨[], true, false,
          [⟨"variantone", 50, none, none⟩,
            ⟨"varianttwo", 50, none, some [⟨"userId", ["u7"]⟩]⟩]⟩
        "two" { user_id := some "u7" } 0).name = "variantone" := by
  decide

/-- C9: a feature compiled from a catalogue entry with `enabled = false`
always evaluates disabled — `is_enabled` is false for every context and
default, and `get_variant` returns the disabled sentinel — regardless of
the entry's strategies and variants and of the registered strategy table. -/
theorem disabled_feature_always_disabled
    (source_strategies :
      String → Option (Option Unleash.Params → Unleash.Context → Bool))
    (feature : Unleash.ApiFeature) (feature_name : String)
    (context : Unleash.Context) (dflt : Bool) (randPick : Nat)
    (h : feature.enabled = false) :
    Unleash.featureIsEnabled
        (Unleash.memoizeFeature source_strategies feature) context dflt
      = false ∧
      Unleash.featureGetVariant
        (Unleash.memoizeFeature source_strategies feature) feature_name
          context randPick = Unleash.Variant.disabled := by
  have hm : Unleash.memoizeFeature source_strategies feature =
      ⟨[], true, true, []⟩ := by
    simp [Unleash.memoizeFeature, h]
  rw [hm]
  exact ⟨rfl, rfl⟩

/-- Witness for `disabled_feature_always_disabled` on a concrete disabled
catalogue entry carrying a strategy and a variant. -/
theorem disabled_feature_always_disabled_witness :
    (Unleash.ApiFeature.enabled
        ⟨"off", false, [⟨none, "default", none⟩],
          some [⟨"v1", 100, none, none⟩]⟩ = false) ∧
      (Unleash.featureIsEnabled
          (Unleash.memoizeFeature (fun _ => none)
            ⟨"off", false, [⟨none, "default", none⟩],
              some [⟨"v1", 100, none, none⟩]⟩) {} true = false ∧
        Unleash.featureGetVariant
          (Unleash.memoizeFeature (fun _ => none)
            ⟨"off", false, [⟨none, "default", none⟩],
              some [⟨"v1", 100, none, none⟩]⟩) "off" {} 0
          = Unleash.Variant.disabled) :=
  ⟨rfl,
    disabled_feature_always_disabled (fun _ => none)
      ⟨"off", false, [⟨none, "default", none⟩], some [⟨"v1", 100, none, none⟩]⟩
      "off" {} true 0 rfl⟩

/-- Substring search agrees with the infix relation. -/
theorem strContainsSub_iff_infix (needle hay : List Char) :
    Unleash.strContainsSub needle hay = true ↔ needle <:+: hay := by
  induction hay with
  | nil => simp [Unleash.strContainsSub, List.isPrefixOf_iff_prefix]
  | cons a t ih =>
    simp [Unleash.strContainsSub, List.isPrefixOf_iff_prefix, ih,
      List.infix_cons_iff]

/-- C7 (amended): for `STR_STARTS_WITH` and `STR_CONTAINS` the predicate is
true iff some listed element matches the context value with a
case-sensitive comparison — `caseInsensitive` has no effect on these two
operators; only `STR_ENDS_WITH` honours `caseInsensitive`, lowercasing both
sides before comparing. -/
theorem str_operator_semantics (values : List String) (ci : Option Bool)
    (val : String) :
    (Unleash.evalConstraintString (.StrStartsWith values ci) none (some val)
        = true ↔ ∃ x ∈ values, x.data <+: val.data) ∧
    (Unleash.evalConstraintString (.StrContains values ci) none (some val)
        = true ↔ ∃ x ∈ values, x.data <:+: val.data) ∧
    (Unleash.evalConstraintString (.StrEndsWith values ci) none (some val)
        = true ↔
      (if ci.getD false = true then
        ∃ x ∈ values, (Unleash.lowercase x).data <:+ (Unleash.lowercase val).data
      else ∃ x ∈ values, x.data <:+ val.data)) ∧
    (∀ inv g, Unleash.evalConstraintString (.StrStartsWith values ci) inv g =
      Unleash.evalConstraintString (.StrStartsWith values none) inv g) ∧
    (∀ inv g, Unleash.evalConstraintString (.StrContains values ci) inv g =
      Unleash.evalConstraintString (.StrContains values none) inv g) := by
  refine ⟨?_, ?_, ?_, fun inv g => rfl, fun inv g => rfl⟩
  · cases values with
    | nil => simp [Unleash.evalConstraintString, Unleash._handle_inversion]
    | cons v vs =>
      simp [Unleash.evalConstraintString, Unleash._handle_inversion,
        Unleash.strStartsWith, List.any_eq_true, List.isPrefixOf_iff_prefix]
  · cases values with
    | nil => simp [Unleash.evalConstraintString, Unleash._handle_inversion]
    | cons v vs =>
      simp [Unleash.evalConstraintString, Unleash._handle_inversion,
        Unleash.strContains, List.any_eq_true, strContainsSub_iff_infix]
  · cases values with
    | nil =>
      simp [Unleash.evalConstraintString, Unleash._handle_inversion]
    | cons v vs =>
      cases hci : ci.getD false with
      | false =>
        simp [Unleash.evalConstraintString, Unleash._handle_inversion, hci,
          Unleash.strEndsWith, List.any_eq_true, List.isSuffixOf_iff_suffix]
      | true =>
        simp [Unleash.evalConstraintString, Unleash._handle_inversion, hci,
          Unleash.strEndsWith, List.any_eq_true, List.isSuffixOf_iff_suffix,
          List.any_map, Function.comp]

/-- C7 (counterexample): with `caseInsensitive` set, a `STR_STARTS_WITH`
constraint on `DEV` does not match context value `development` — the source
compares case-sensitively, so the claimed lowercase-both-sides semantics
fails; the same flag on `STR_ENDS_WITH` does match, showing the
asymmetry. -/
theorem str_operator_case_insensitive_ignored_cex :
    Unleash.evalConstraint
        ⟨"environment", none, .StrStartsWith ["DEV"] (some true)⟩
        { environment := "development" } = false ∧
      Unleash.evalConstraint
        ⟨"environment", none, .StrEndsWith ["MENT"] (some true)⟩
        { environment := "development" } = true := by
  refine ⟨by decide, by decide⟩

/-- The weight-accumulation walk returns the first variant whose running
total exceeds the selected weight, provided the grand total does. -/
theorem selectVariant_first_crossing (vs : List Unleash.CachedVariant)
    (c s : Nat) (hcs : c ≤ s)
    (htot : s < c + ((vs.map (fun v => v.weight)).sum)) :
    ∃ i, ∃ h : i < vs.length,
      Unleash.selectVariant vs c s = some (vs.get ⟨i, h⟩) ∧
      s < c + Unleash.weightSum vs (i + 1) ∧
      ∀ j, j < i → c + Unleash.weightSum vs (j + 1) ≤ s := by
  induction vs generalizing c with
  | nil =>
    simp only [List.map_nil, List.sum_nil, Nat.add_zero] at htot
    omega
  | cons v rest ih =>
    have hws1 : Unleash.weightSum (v :: rest) 1 = v.weight := by
      simp [Unleash.weightSum]
    by_cases hcross : s < c + v.weight
    · refine ⟨0, Nat.succ_pos _, ?_, ?_, ?_⟩
      · simp [Unleash.selectVariant, hcross]
      · simpa [hws1] using hcross
      · intro j hj; omega
    · have hle : c + v.weight ≤ s := Nat.not_lt.mp hcross
      have htot' : s < (c + v.weight) + ((rest.map (fun v => v.weight)).sum) := by
        simp only [List.map_cons, List.sum_cons] at htot
        omega
      obtain ⟨i, h, hsel, hlt, hmin⟩ := ih (c + v.weight) hle htot'
      have hstep : Unleash.selectVariant (v :: rest) c s =
          Unleash.selectVariant rest (c + v.weight) s := by
        simp [Unleash.selectVariant, hcross]
      have hws : ∀ k, Unleash.weightSum (v :: rest) (k + 1 + 1) =
          v.weight + Unleash.weightSum rest (k + 1) := by
        intro k
        simp [Unleash.weightSum, List.take_succ_cons]
      refine ⟨i + 1, Nat.succ_lt_succ h, ?_, ?_, ?_⟩
      · rw [hstep, hsel]
        rfl
      · rw [hws i]; omega
      · intro j hj
        cases j with
        | zero => simpa [hws1] using hle
        | succ k =>
          have hk : k < i := Nat.lt_of_succ_lt_succ hj
          have := hmin k hk
          rw [hws k]
          omega

/-- C5 (amended): for an enabled feature with a non-empty list of
positive-weight variants and a context providing an identifier,
`_get_variant` computes `selected = normalised_hash(featureName,
identifier, totalWeight)` — the seed-0, 0-based hash — and returns the
first variant (in declared order) whose running weight total is strictly
greater than `selected` (equivalently, `≥ selected + 1`). -/
theorem get_variant_first_crossing (feature : Unleash.CachedFeature)
    (feature_name : String) (context : Unleash.Context) (identifier : String)
    (randPick : Nat) (hne : feature.variants ≠ [])
    (hw : ∀ v ∈ feature.variants, 0 < v.weight)
    (hid : Unleash.contextIdentifier context = some identifier) :
    ∃ i, ∃ h : i < feature.variants.length,
      Unleash._get_variant feature feature_name context randPick =
        Unleash.variantFromCached (feature.variants.get ⟨i, h⟩) ∧
      Unleash.normalised_hash feature_name identifier
          ((feature.variants.map (fun v => v.weight)).sum) <
        Unleash.weightSum feature.variants (i + 1) ∧
      ∀ j, j < i →
        Unleash.weightSum feature.variants (j + 1) ≤
          Unleash.normalised_hash feature_name identifier
            ((feature.variants.map (fun v => v.weight)).sum) := by
  have htpos : 0 < (feature.variants.map (fun v => v.weight)).sum := by
    cases hv : feature.variants with
    | nil => exact absurd hv hne
    | cons v rest =>
      have hw0 := hw v (by rw [hv]; exact List.mem_cons_self ..)
      simp only [List.map_cons, List.sum_cons]
      omega
  have hltt : Unleash.normalised_hash feature_name identifier
      ((feature.variants.map (fun v => v.weight)).sum) <
      (feature.variants.map (fun v => v.weight)).sum :=
    Nat.mod_lt _ htpos
  obtain ⟨i, h, hsel, hcr, hmin⟩ :=
    selectVariant_first_crossing feature.variants 0
      (Unleash.normalised_hash feature_name identifier
        ((feature.variants.map (fun v => v.weight)).sum))
      (Nat.zero_le _) (by omega)
  have hie : feature.variants.isEmpty = false := by
    simp [List.isEmpty_eq_false]
    exact hne
  refine ⟨i, h, ?_, by simpa using hcr, fun j hj => by simpa using hmin j hj⟩
  simp only [Unleash._get_variant, hie, Bool.false_eq_true, if_false, hid,
    hsel]

/-- Witness for `get_variant_first_crossing` at feature `two`, identifier
`user1`: the selected index is 1 (`varianttwo`). -/
theorem get_variant_first_crossing_witness :
    ((([⟨"variantone", 50, none, none⟩, ⟨"varianttwo", 50, none, none⟩] :
        List Unleash.CachedVariant) ≠ []) ∧
      (∀ v ∈ ([⟨"variantone", 50, none, none⟩, ⟨"varianttwo", 50, none, none⟩] :
        List Unleash.CachedVariant), 0 < v.weight) ∧
      Unleash.contextIdentifier { user_id := some "user1" } = some "user1") ∧
    (∃ i, ∃ h : i <
        (Unleash.CachedFeature.variants
          ⟨[], true, false,
            [⟨"variantone", 50, none, none⟩,
              ⟨"varianttwo", 50, none, none⟩]⟩).length,
      Unleash._get_variant
          ⟨[], true, false,
            [⟨"variantone", 50, none, none⟩, ⟨"varianttwo", 50, none, none⟩]⟩
          "two" { user_id := some "user1" } 0 =
        Unleash.variantFromCached
          ((Unleash.CachedFeature.variants
            ⟨[], true, false,
              [⟨"variantone", 50, none, none⟩,
                ⟨"varianttwo", 50, none, none⟩]⟩).get ⟨i, h⟩) ∧
      Unleash.normalised_hash "two" "user1"
          (((Unleash.CachedFeature.variants
            ⟨[], true, false,
              [⟨"variantone", 50, none, none⟩,
                ⟨"varianttwo", 50, none, none⟩]⟩).map
            (fun v => v.weight)).sum) <
        Unleash.weightSum
          (Unleash.CachedFeature.variants
            ⟨[], true, false,
              [⟨"variantone", 50, none, none⟩,
                ⟨"varianttwo", 50, none, none⟩]⟩) (i + 1) ∧
      ∀ j, j < i →
        Unleash.weightSum
            (Unleash.CachedFeature.variants
              ⟨[], true, false,
                [⟨"variantone", 50, none, none⟩,
                  ⟨"varianttwo", 50, none, none⟩]⟩) (j + 1) ≤
          Unleash.normalised_hash "two" "user1"
            (((Unleash.CachedFeature.variants
              ⟨[], true, false,
                [⟨"variantone", 50, none, none⟩,
                  ⟨"varianttwo", 50, none, none⟩]⟩).map
              (fun v => v.weight)).sum)) :=
  ⟨⟨by decide, by decide, by decide⟩,
    get_variant_first_crossing
      ⟨[], true, false,
        [⟨"variantone", 50, none, none⟩, ⟨"varianttwo", 50, none, none⟩]⟩
      "two" { user_id := some "user1" } "user1" 0 (by decide) (by decide)
      (by decide)⟩

/-- Mapping preserves emptiness. -/
theorem list_isEmpty_map {α β : Type} (f : α → β) (l : List α) :
    (l.map f).isEmpty = l.isEmpty := by
  cases l <;> rfl

/-- Replacing overrides leaves the weight unchanged. -/
theorem setOverrides_weight
    (g : Unleash.CachedVariant → Option (List Unleash.VariantOverride))
    (v : Unleash.CachedVariant) :
    (Unleash.setOverrides g v).weight = v.weight := rfl

/-- Replacing overrides leaves the public variant unchanged. -/
theorem variantFromCached_setOverrides
    (g : Unleash.CachedVariant → Option (List Unleash.VariantOverride))
    (v : Unleash.CachedVariant) :
    Unleash.variantFromCached (Unleash.setOverrides g v) =
      Unleash.variantFromCached v := rfl

/-- The weight walk commutes with replacing overrides. -/
theorem selectVariant_map_setOverrides
    (g : Unleash.CachedVariant → Option (List Unleash.VariantOverride))
    (vs : List Unleash.CachedVariant) (c s : Nat) :
    Unleash.selectVariant (vs.map (Unleash.setOverrides g)) c s =
      (Unleash.selectVariant vs c s).map (Unleash.setOverrides g) := by
  induction vs generalizing c with
  | nil => rfl
  | cons v rest ih =>
    simp only [List.map_cons, Unleash.selectVariant, setOverrides_weight]
    by_cases hc : c + v.weight > s
    · simp [hc]
    · simp [hc, ih]

/-- C6 (amended): variant overrides are carried in `CachedVariant` but
never consulted by `_get_variant`: replacing every variant's overrides by
anything whatsoever leaves the result of `_get_variant` unchanged, for
every feature, context and random pick.  In particular an override on
`userId = "u7"` does not force its variant. -/
theorem overrides_have_no_effect (feature : Unleash.CachedFeature)
    (feature_name : String) (context : Unleash.Context) (randPick : Nat)
    (g : Unleash.CachedVariant → Option (List Unleash.VariantOverride)) :
    Unleash._get_variant
        { feature with
          variants := feature.variants.map (Unleash.setOverrides g) }
        feature_name context randPick =
      Unleash._get_variant feature feature_name context randPick := by
  have hproj :
      ({ feature with
          variants := feature.variants.map (Unleash.setOverrides g) } :
        Unleash.CachedFeature).variants =
        feature.variants.map (Unleash.setOverrides g) := rfl
  have hwmap : (feature.variants.map (Unleash.setOverrides g)).map
      (fun w => w.weight) = feature.variants.map (fun w => w.weight) := by
    rw [List.map_map]
    rfl
  simp only [Unleash._get_variant, hproj, list_isEmpty_map, hwmap,
    List.length_map, selectVariant_map_setOverrides]
  cases hvs : feature.variants.isEmpty with
  | true => rfl
  | false =>
    simp only [Bool.false_eq_true, if_false]
    cases hid : Unleash.contextIdentifier context with
    | none =>
      simp only [List.getD_eq_getElem?_getD, List.getElem?_map]
      cases hoe : feature.variants[randPick % feature.variants.length]? with
      | none => rfl
      | some w => simp [variantFromCached_setOverrides]
    | some identifier =>
      cases hsv : Unleash.selectVariant feature.variants 0
          (Unleash.normalised_hash feature_name identifier
            ((feature.variants.map (fun w => w.weight)).sum)) with
      | none => simp [hsv]
      | some w => simp [hsv, variantFromCached_setOverrides]

end Unleash

/-!
Validation of the embedding against the source's own test suite
(`strategy.rs` and `client.rs` `mod tests`): each example below replays one
of the repository's test assertions through the embedded definitions.
-/

section SourceTestVectors

example : Unleash.evalConstraint ⟨"environment", some false, .In ["development"]⟩
    { environment := "development" } = true := by decide
example : Unleash.evalConstraint ⟨"environment", some false, .NotIn ["development"]⟩
    { environment := "development" } = false := by decide
example : Unleash.evalConstraint ⟨"environment", some false,
    .StrStartsWith ["dev"] (some false)⟩
    { environment := "development" } = true := by decide
example : Unleash.evalConstraint ⟨"environment", some false,
    .StrEndsWith ["ent"] (some false)⟩
    { environment := "development" } = true := by decide
example : Unleash.evalConstraint ⟨"environment", some false,
    .StrContains ["elop"] (some false)⟩
    { environment := "development" } = true := by decide
example : Unleash.evalConstraint ⟨"environment", some false,
    .SemverLt "6.2.8"⟩ { environment := "3.1.4-beta.2" } = true := by decide
example : Unleash.evalConstraint ⟨"environment", some false,
    .SemverLt "2.7.1"⟩ { environment := "3.1.4-beta.2" } = false := by decide
example : Unleash.evalConstraint ⟨"environment", some false,
    .SemverLt "3.1.4-beta.2"⟩ { environment := "3.1.4-beta.2" } = false := by decide
example : Unleash.evalConstraint ⟨"environment", some false,
    .SemverLt "3.1.4-gamma.3"⟩ { environment := "3.1.4-beta.2" } = true := by decide
example : Unleash.evalConstraint ⟨"environment", some false,
    .SemverLt "3.1.4-alpha.3"⟩ { environment := "3.1.4-beta.2" } = false := by decide
example : Unleash.evalConstraint ⟨"environment", some false,
    .SemverGt "2.7.1"⟩ { environment := "3.1.4-beta.2" } = true := by decide
example : Unleash.evalConstraint ⟨"environment", some false,
    .SemverGt "3.1.4-gamma.3"⟩ { environment := "3.1.4-beta.2" } = false := by decide
example : Unleash.evalConstraint ⟨"environment", some false,
    .SemverGt "3.1.4-alpha.3"⟩ { environment := "3.1.4-beta.2" } = true := by decide
example : Unleash.evalConstraint ⟨"version", some false, .SemverEq "1.2.2"⟩
    { properties := [("version", "1.2.2")] } = true := by decide
example : Unleash.evalConstraint ⟨"version", some false, .SemverEq "2.7.1"⟩
    { properties := [("version", "1.2.2")] } = false := by decide
example : Unleash.evalConstraint ⟨"remoteAddress", some false,
    .In ["10.0.0.0/8"]⟩
    { remote_address := some ⟨.v4 0x0A141E28⟩ } = true := by decide
example : Unleash.evalConstraint ⟨"remoteAddress", some false,
    .NotIn ["10.0.0.0/8"]⟩
    { remote_address := some ⟨.v4 0x01020304⟩ } = true := by decide
example : Unleash.parseVersion "NotASemver" = none := by decide
example : (Unleash._ip_to_vec ["1.2.0.0/8", "2.3.4.5"]).length = 2 := by decide
example :
    Unleash._get_variant
      ⟨[], true, false,
        [⟨"variantone", 50, none, none⟩, ⟨"varianttwo", 50, none, none⟩]⟩
      "two" { session_id := some "session1" } 0
    = ⟨"varianttwo", [], true⟩ := by decide
example : Unleash.featureIsEnabled ⟨[], true, false, []⟩ {} false = true := rfl

end SourceTestVectors
